import Mathlib

/-!
# Verification of the vakeel-way liveness aggregator core

Shallow embedding of the TTL cache (`internal/infra/cache/cache.go`),
the state engine (`internal/domain/services`, shipped in
`internal/app/server.go`), the webhook repository
(`internal/infra/repositories/webhook.go`) and the Instatus notifier
(`instatus` package) of the bavix/vakeel-way repository, together with
proofs about the behaviour the specification describes.

Modelling conventions:
* `time.Time` instants and `time.Duration` values are natural numbers
  counted in seconds (`time.Minute` = 60, 15*`time.Second` = 15).
* The Go `map[K]*item[V]` is an association list `List (K × CItem V)`;
  `Add` overwrites by erasing the key and consing, `Get` is `List.find?`.
* Callbacks are instrumented: instead of running side effects they
  return the list of observable events in execution order, so that
  sequential composition of Go statements becomes list append.
* External collaborators (the webhook storage map, the HTTP transport)
  are parameters of the functions that use them.
-/

/-! ## entities.Status (`internal/domain/entities`)

Go: `type Status uint8` with constants `Up = 0`, `Down = 1` and a
`String()` method returning "up" / "down" / "Undefined". -/

abbrev Status := Nat

def Status.Up : Status := 0

def Status.Down : Status := 1

/-- The `String()` method of `entities.Status`: "up" for `Up`,
"down" for `Down`, "Undefined" otherwise. -/
def Status.string (s : Status) : String :=
  match s with
  | 0 => "up"
  | 1 => "down"
  | _ => "Undefined"

/-! ## The TTL cache (`internal/infra/cache`) -/

/-- One cache slot, Go struct `item[V]`: the stored value and the
absolute expiry instant (field `TTL`, set to `clock.Now().Add(ttl)`). -/
structure CItem (V : Type) where
  value : V
  ttl : Nat
  deriving DecidableEq, Repr

/-- The cache's `items map[K]*item[V]`, modelled as an association
list. At most one live entry per key when built through `cacheAdd`. -/
abbrev CMap (K V : Type) := List (K × CItem V)

/-- `Cache.Get`: a read under `RLock` that looks the key up in the
`items` map and returns the stored value; the entry's deadline is not
consulted. `some v` stands for Go's `(&v, true)`, `none` for
`(nil, false)`. -/
def cacheGet {K V : Type} [DecidableEq K] (items : CMap K V) (key : K) : Option V :=
  (items.find? (fun p => p.1 = key)).map (fun p => p.2.value)

/-- Internal view of `Cache.Get` that also exposes the deadline of the
entry that was found (the `*item[V]` the map holds). -/
def cacheFind {K V : Type} [DecidableEq K] (items : CMap K V) (key : K) : Option (CItem V) :=
  (items.find? (fun p => p.1 = key)).map (fun p => p.2)

/-- `Cache.Add(key, value, ttl)` performed at instant `now`: inserts or
overwrites the entry for `key` with deadline `now + ttl`
(Go: `item{Value: value, TTL: c.clock.Now().Add(ttl)}`). -/
def cacheAdd {K V : Type} [DecidableEq K] (items : CMap K V) (now : Nat) (key : K)
    (value : V) (ttl : Nat) : CMap K V :=
  (key, ⟨value, now + ttl⟩) :: items.filter (fun p => ¬(p.1 = key))

/-- Go's `delete(c.items, k)`. -/
def cacheDelete {K V : Type} [DecidableEq K] (items : CMap K V) (key : K) : CMap K V :=
  items.filter (fun p => ¬(p.1 = key))

/-- `Cache.removeExpiredItems` at instant `now`, pure content: walks
the `items` map; every entry with `TTL.Before(now)` produces an
eviction-callback invocation `(key, value)` and is dropped, every
other entry is kept untouched. Returns (remaining map, callback
invocations in execution order). -/
def removeExpiredItems {K V : Type} (now : Nat) : CMap K V → CMap K V × List (K × V)
  | [] => ([], [])
  | (k, it) :: rest =>
    let r := removeExpiredItems now rest
    if it.ttl < now then (r.1, (k, it.value) :: r.2)
    else ((k, it) :: r.1, r.2)

/-! ### Eviction callbacks (`Cache.OnEvict`)

A Go callback `Fn[K, V]` runs for its side effects; the model lets a
callback return the list of its observable events, so running
`fn(key, value); old(key, value)` is `fn key value ++ old key value`. -/

/-- The default callback installed by `NewCache`: `func(K, V) {}`. -/
def onEvictDefault {K V E : Type} : K → V → List E := fun _ _ => []

/-- `Cache.OnEvict(fn)` replaces the stored callback `old` by a
composition that first runs `fn`, then runs `old`. -/
def onEvictCompose {K V E : Type} (old fn : K → V → List E) : K → V → List E :=
  fun key value => fn key value ++ old key value

/-! ## Webhook repository and notifier environment

`WebhookStubRepository.Get` looks `id` up in the `storage` map and
returns `ErrWebhookNotFound` when absent. `instatus.Api.Send` POSTs to
a URL and fails iff the transport fails. The state engine sees both
only through their results, so they enter the model as oracles. -/

/-- Errors visible to the state engine: `ErrWebhookNotFound` from the
repository, or a transport error from the HTTP client. -/
inductive GoErr
  | webhookNotFound
  | transport (code : Nat)
  deriving DecidableEq, Repr

/-- The external collaborators of `StateManager`: the repository's
`storage map[uuid.UUID]string` and the outcome of each
`api.Send(ctx, url, status)` call (`none` = success). UUIDs are
modelled as naturals. -/
structure Env where
  repoStorage : Nat → Option String
  apiResult : String → Status → Option GoErr

/-- `WebhookStubRepository.Get`: map lookup, `ErrWebhookNotFound` when
the id is not configured. -/
def repoGet (env : Env) (id : Nat) : Except GoErr String :=
  match env.repoStorage id with
  | some url => Except.ok url
  | none => Except.error GoErr.webhookNotFound

/-- Observable calls the state engine makes on its collaborators. -/
inductive Ev
  | repoGet (id : Nat)
  | apiSend (url : String) (status : Status)
  deriving DecidableEq, Repr

/-! ## StateManager (`internal/domain/services`, in `internal/app/server.go`) -/

/-- Go struct `state`: the status last written for a webhook and the
number of failed delivery attempts (`attempt uint32`). -/
structure SvcState where
  status : Status
  attempt : Nat
  deriving DecidableEq, Repr

/-- `StateManager.Send(ctx, id, status)` at instant `now` over cache
contents `cache`. Returns (result, new cache contents, collaborator
calls in order). Mirrors the source: `ttl = time.Minute`; if the cache
holds an entry whose status equals the incoming one, refresh it with
`state{status, attempt: 0}` and return nil; otherwise resolve the URL
(propagating failure), call `api.Send` (propagating failure without a
cache write), and on success write `state{status, attempt: 0}`. -/
def stateManagerSend (env : Env) (now : Nat) (cache : CMap Nat SvcState)
    (id : Nat) (status : Status) :
    Except GoErr Unit × CMap Nat SvcState × List Ev :=
  let ttl := 60
  let notifyPath :=
    match repoGet env id with
    | Except.error e => (Except.error e, cache, [Ev.repoGet id])
    | Except.ok target =>
      match env.apiResult target status with
      | some e => (Except.error e, cache, [Ev.repoGet id, Ev.apiSend target status])
      | none =>
        (Except.ok (), cacheAdd cache now id ⟨status, 0⟩ ttl,
          [Ev.repoGet id, Ev.apiSend target status])
  match cacheFind cache id with
  | some current =>
    if current.value.status = status then
      (Except.ok (), cacheAdd cache now id ⟨status, 0⟩ ttl, [])
    else notifyPath
  | none => notifyPath

/-- `StateManager.garbageCollector(id, current)`, the eviction
callback, at instant `now` over cache contents `cache`. Mirrors the
source: give up when `current.attempt >= 5`; on repository failure or
`api.Send` failure re-insert `current` with its `attempt` incremented
(a `uint32` increment) and a TTL equal to the 15 second timeout; on
success leave the cache alone. Returns (new cache contents,
collaborator calls in order). -/
def garbageCollector (env : Env) (now : Nat) (cache : CMap Nat SvcState)
    (id : Nat) (current : SvcState) : CMap Nat SvcState × List Ev :=
  if 5 ≤ current.attempt then (cache, [])
  else
    let bumped : SvcState := ⟨current.status, (current.attempt + 1) % 2 ^ 32⟩
    match repoGet env id with
    | Except.error _ => (cacheAdd cache now id bumped 15, [Ev.repoGet id])
    | Except.ok target =>
      match env.apiResult target Status.Down with
      | some _ =>
        (cacheAdd cache now id bumped 15,
          [Ev.repoGet id, Ev.apiSend target Status.Down])
      | none => (cache, [Ev.repoGet id, Ev.apiSend target Status.Down])

/-! ## The sweep composed with the eviction handler

`removeExpiredItems` iterates over the keys of `c.items`; for each
expired entry it runs `c.onEvict(k, item.Value)` (which, wired through
`WithOnEvict(stateManager.garbageCollector)`, may call `cache.Add`)
and afterwards executes `delete(c.items, k)`. The functions below play
that loop body out sequentially, ignoring the mutex. -/

/-- One iteration of the `removeExpiredItems` loop for key `k`:
look the item up; when expired, run the garbage collector (whose
`cache.Add` mutates the map) and then `delete` the key. -/
def gcSweepStep (env : Env) (now : Nat) (cache : CMap Nat SvcState) (k : Nat) :
    CMap Nat SvcState :=
  match cacheFind cache k with
  | none => cache
  | some it =>
    if it.ttl < now then cacheDelete (garbageCollector env now cache k it.value).1 k
    else cache

/-- The whole sweep: the loop body applied to each key of the map
(iteration order given by `keys`). -/
def gcSweep (env : Env) (now : Nat) (keys : List Nat) (cache : CMap Nat SvcState) :
    CMap Nat SvcState :=
  keys.foldl (gcSweepStep env now) cache

/-! ## Lock discipline of the sweep

`removeExpiredItems` holds `c.mu.Lock()` for its whole duration and
invokes `c.onEvict` inside that critical section; `cache.Add` begins
with `c.mu.Lock()` on the same mutex. The traces below record, in
program order, the write-lock operations the code issues on the cache
mutex `c.mu` (the engine's own `s.mu` is a different mutex and is not
recorded). -/

inductive LockEv
  | lock
  | unlock
  deriving DecidableEq, Repr

/-- `cache.Add` takes and releases the cache write lock. -/
def addLockTrace : List LockEv := [LockEv.lock, LockEv.unlock]

/-- Cache write-lock operations issued by `garbageCollector(id,
current)`: none when it gives up or when delivery succeeds, the
`cache.Add` lock/unlock pair on either failure path. -/
def gcLockTrace (env : Env) (id : Nat) (current : SvcState) : List LockEv :=
  if 5 ≤ current.attempt then []
  else
    match repoGet env id with
    | Except.error _ => addLockTrace
    | Except.ok target =>
      match env.apiResult target Status.Down with
      | some _ => addLockTrace
      | none => []

/-- Cache write-lock operations issued during one
`removeExpiredItems` run: take the lock, run the composed eviction
callback for every expired entry, release the lock. -/
def sweepLockTrace (env : Env) (now : Nat) (items : CMap Nat SvcState) : List LockEv :=
  LockEv.lock ::
    ((items.filter (fun p => p.2.ttl < now)).map
      (fun p => gcLockTrace env p.1 p.2.value)).flatten
    ++ [LockEv.unlock]

/-- Detects an acquisition of a non-reentrant mutex by a thread that
already holds it: scanning the trace with the current hold depth, a
`lock` at depth ≥ 1 is a self-deadlock. -/
def hasNestedLock : Nat → List LockEv → Bool
  | _, [] => false
  | depth, LockEv.lock :: rest => decide (1 ≤ depth) || hasNestedLock (depth + 1) rest
  | depth, LockEv.unlock :: rest => hasNestedLock (depth - 1) rest

/-! ## The Instatus notifier (`instatus.Api.Send`) -/

/-- The request `Api.Send` builds: method, target URL, the
`Content-Type` header it sets, and the body bytes. -/
structure HttpRequest where
  method : String
  url : String
  contentType : String
  body : String
  deriving DecidableEq, Repr

/-- An HTTP response as the notifier sees it; only its existence
matters, the code never reads the status code. -/
structure HttpResponse where
  statusCode : Nat
  deriving DecidableEq, Repr

/-- The payload `fmt.Sprintf` builds: a JSON object whose single
`trigger` field holds the status's string form. -/
def triggerPayload (status : Status) : String :=
  "\x7b\"trigger\": \"" ++ Status.string status ++ "\"\x7d"

/-- `instatus.Api.Send(ctx, url, status)`: build the POST request with
the JSON payload and the `application/json` content type, hand it to
the transport (`client.Do`), and return nil exactly when the transport
produced a response — the response itself is discarded. Returns the
request issued together with the call's result. -/
def instatusSend (transport : HttpRequest → Option HttpResponse)
    (url : String) (status : Status) : HttpRequest × Option GoErr :=
  let req : HttpRequest := ⟨"POST", url, "application/json", triggerPayload status⟩
  (req,
    match transport req with
    | some _ => none
    | none => some (GoErr.transport 0))

/-! ## Cache operation traces (for the Add/Get contract)

A history of mutating cache operations: client `Add` calls and
sweeper runs, each tagged with the instant it happens. `Get` and
`OnEvict` do not touch the `items` map and need no trace entry. -/

inductive CacheOp (K V : Type)
  | add (key : K) (value : V) (ttl : Nat)
  | sweep
  deriving DecidableEq, Repr

/-- Whether an operation is an `Add` for the key `k`. -/
def addsKey {K V : Type} [DecidableEq K] (k : K) : CacheOp K V → Bool
  | CacheOp.add key _ _ => key = k
  | CacheOp.sweep => false

/-- Run one timed operation against the cache contents. -/
def applyCacheOp {K V : Type} [DecidableEq K] (st : CMap K V) (p : Nat × CacheOp K V) :
    CMap K V :=
  match p.2 with
  | CacheOp.add key value ttl => cacheAdd st p.1 key value ttl
  | CacheOp.sweep => (removeExpiredItems p.1 st).1

/-- Run a history of timed operations in order. -/
def applyCacheOps {K V : Type} [DecidableEq K] (st : CMap K V)
    (ops : List (Nat × CacheOp K V)) : CMap K V :=
  ops.foldl applyCacheOp st

/-! ## Helper lemmas about the association-list map -/

theorem find?_filter_of_found {α : Type} {p q : α → Bool} {l : List α} {a : α}
    (hfind : l.find? p = some a) (hq : q a = true) :
    (l.filter q).find? p = some a := by
  induction l with
  | nil => simp at hfind
  | cons x xs ih =>
    by_cases hp : p x
    · rw [List.find?_cons_of_pos _ hp] at hfind
      cases hfind
      rw [List.filter_cons_of_pos hq, List.find?_cons_of_pos _ hp]
    · rw [List.find?_cons_of_neg _ hp] at hfind
      by_cases hqx : q x
      · rw [List.filter_cons_of_pos hqx, List.find?_cons_of_neg _ hp]
        exact ih hfind
      · rw [List.filter_cons_of_neg hqx]
        exact ih hfind

theorem find?_filter_of_imp {α : Type} {p q : α → Bool} (l : List α)
    (himp : ∀ x, p x = true → q x = true) :
    (l.filter q).find? p = l.find? p := by
  induction l with
  | nil => rfl
  | cons x xs ih =>
    by_cases hp : p x
    · rw [List.filter_cons_of_pos (himp x hp), List.find?_cons_of_pos _ hp,
        List.find?_cons_of_pos _ hp]
    · by_cases hqx : q x
      · rw [List.filter_cons_of_pos hqx, List.find?_cons_of_neg _ hp,
          List.find?_cons_of_neg _ hp]
        exact ih
      · rw [List.filter_cons_of_neg hqx, List.find?_cons_of_neg _ hp]
        exact ih

theorem cacheGet_eq_find {K V : Type} [DecidableEq K] (items : CMap K V) (key : K) :
    cacheGet items key = (cacheFind items key).map (fun it => it.value) := by
  simp [cacheGet, cacheFind, Option.map_map]
  rfl

theorem cacheFind_add_self {K V : Type} [DecidableEq K] (items : CMap K V)
    (now : Nat) (key : K) (value : V) (ttl : Nat) :
    cacheFind (cacheAdd items now key value ttl) key = some ⟨value, now + ttl⟩ := by
  simp [cacheFind, cacheAdd, List.find?_cons_of_pos]

theorem cacheFind_add_other {K V : Type} [DecidableEq K] (items : CMap K V)
    (now : Nat) (key k : K) (value : V) (ttl : Nat) (h : key ≠ k) :
    cacheFind (cacheAdd items now key value ttl) k = cacheFind items k := by
  unfold cacheFind cacheAdd
  rw [List.find?_cons_of_neg _ (by simp [h])]
  rw [find?_filter_of_imp]
  intro x hx
  have hx' : x.1 = k := by simpa using hx
  have hne : ¬ x.1 = key := by rw [hx']; exact fun hkk => h hkk.symm
  simpa using hne

/-- The pure content of one sweeper pass: exactly the entries whose
deadline is strictly before `now` are turned into callback
invocations, the others survive untouched. -/
theorem removeExpired_spec {K V : Type} (now : Nat) (items : CMap K V) :
    removeExpiredItems now items =
      (items.filter (fun p => ¬(p.2.ttl < now)),
        (items.filter (fun p => p.2.ttl < now)).map (fun p => (p.1, p.2.value))) := by
  induction items with
  | nil => rfl
  | cons x xs ih =>
    obtain ⟨k, it⟩ := x
    by_cases h : it.ttl < now
    · simp [removeExpiredItems, ih, h, List.filter_cons]
    · simp [removeExpiredItems, ih, h, List.filter_cons, Nat.not_lt.mp h]

/-- An unexpired entry survives a sweeper pass with value and deadline
unchanged. -/
theorem cacheFind_sweep_preserve {K V : Type} [DecidableEq K] (now : Nat)
    (items : CMap K V) (k : K) (it : CItem V)
    (hfind : cacheFind items k = some it) (hlive : ¬ it.ttl < now) :
    cacheFind (removeExpiredItems now items).1 k = some it := by
  rw [removeExpired_spec]
  unfold cacheFind at hfind ⊢
  obtain ⟨pr, hpr, hval⟩ := Option.map_eq_some'.mp hfind
  subst hval
  rw [find?_filter_of_found hpr (by simp [hlive])]
  rfl

/-- The entry written by `Add` survives any later operations that are
no `Add` for its key and happen strictly before its deadline. -/
theorem applyOps_preserve {K V : Type} [DecidableEq K] (k : K) (v : V) (dl t : Nat)
    (ops : List (Nat × CacheOp K V)) :
    ∀ st : CMap K V, cacheFind st k = some ⟨v, dl⟩ →
    (∀ p ∈ ops, p.1 ≤ t ∧ addsKey k p.2 = false) → t < dl →
    cacheFind (applyCacheOps st ops) k = some ⟨v, dl⟩ := by
  induction ops with
  | nil => intro st hst _ _; exact hst
  | cons p rest ih =>
    intro st hst hops hdl
    obtain ⟨hp, hrest⟩ := List.forall_mem_cons.mp hops
    have hstep : cacheFind (applyCacheOp st p) k = some ⟨v, dl⟩ := by
      obtain ⟨tp, op⟩ := p
      cases op with
      | add key value ttl =>
        have hkey : key ≠ k := by
          intro hkk
          simp [addsKey, hkk] at hp
        rw [applyCacheOp, cacheFind_add_other _ _ _ _ _ _ hkey]
        exact hst
      | sweep =>
        refine cacheFind_sweep_preserve _ _ _ _ hst ?_
        have htp : tp ≤ t := hp.1
        show ¬ dl < tp
        omega
    simpa [applyCacheOps] using ih (applyCacheOp st p) hstep hrest hdl

/-! ## The claims -/

/-- Claim C1. The claim states that after a sweep evicts an `Up` entry
with `attempt < 5` and the Down delivery (or URL resolution) fails,
the cache again contains an entry for that id with `attempt + 1` and a
deadline 15 seconds out. The code violates this: played out
sequentially, the sweeper's `delete(c.items, k)` runs after the
eviction callback returns, so the entry `garbageCollector` re-inserted
is erased and no entry for the id survives the sweep (and in the real
program the callback's `cache.Add` already self-deadlocks on the cache
mutex, see claim C2). Concrete run: id 7, entry `state{Up, attempt 0}`
with deadline 10, swept at instant 11, repository lookup failing. -/
theorem claim_C1_sweep_drops_retry_entry :
    cacheFind (gcSweep ⟨fun _ => none, fun _ _ => none⟩ 11 [7]
      [(7, ⟨⟨Status.Up, 0⟩, 10⟩)]) 7 = none := by
  decide

/-- Claim C2. The claim states that the eviction handler's re-insert
never calls `cache.Add` while the sweeper holds the cache write lock.
The code violates this: `removeExpiredItems` holds `c.mu.Lock()` for
the whole scan and invokes `c.onEvict` inside the critical section,
and `garbageCollector`'s failure path calls `s.cache.Add`, which
starts with `c.mu.Lock()` on the same non-reentrant mutex. The
program-order write-lock trace of sweeping one expired entry whose
delivery fails therefore acquires the already-held lock: a
self-deadlock. -/
theorem claim_C2_sweep_self_deadlock :
    hasNestedLock 0 (sweepLockTrace ⟨fun _ => none, fun _ _ => none⟩ 21
      [(9, ⟨⟨Status.Up, 2⟩, 20⟩)]) = true := by
  decide

/-- Claim C3. If `StateManager.Send` finds a cache entry for `id`
whose status equals the incoming one, it returns nil, makes no
repository or notifier call, and rewrites the entry with the same
status, `attempt = 0` and deadline `now + 60` seconds. -/
theorem claim_C3_equal_status_refresh (env : Env) (now : Nat)
    (cache : CMap Nat SvcState) (id : Nat) (status : Status)
    (current : CItem SvcState)
    (hfind : cacheFind cache id = some current)
    (hstatus : current.value.status = status) :
    stateManagerSend env now cache id status =
      (Except.ok (), cacheAdd cache now id ⟨status, 0⟩ 60, []) ∧
    cacheFind (stateManagerSend env now cache id status).2.1 id =
      some ⟨⟨status, 0⟩, now + 60⟩ := by
  have h1 : stateManagerSend env now cache id status =
      (Except.ok (), cacheAdd cache now id ⟨status, 0⟩ 60, []) := by
    simp [stateManagerSend, hfind, hstatus]
  refine ⟨h1, ?_⟩
  rw [h1]
  exact cacheFind_add_self cache now id ⟨status, 0⟩ 60

theorem claim_C3_witness :
    stateManagerSend ⟨fun _ => none, fun _ _ => none⟩ 100
        [(3, ⟨⟨Status.Up, 2⟩, 5⟩)] 3 Status.Up =
      (Except.ok (),
        cacheAdd [(3, ⟨⟨Status.Up, 2⟩, 5⟩)] 100 3 ⟨Status.Up, 0⟩ 60, []) ∧
    cacheFind (stateManagerSend ⟨fun _ => none, fun _ _ => none⟩ 100
        [(3, ⟨⟨Status.Up, 2⟩, 5⟩)] 3 Status.Up).2.1 3 =
      some ⟨⟨Status.Up, 0⟩, 100 + 60⟩ :=
  claim_C3_equal_status_refresh _ 100 _ 3 Status.Up ⟨⟨Status.Up, 2⟩, 5⟩
    (by decide) (by decide)

/-- Claim C4. With no equal-status entry in the cache, a failing
repository lookup or a failing notifier call makes `StateManager.Send`
return that error with the cache left exactly as it was: no entry is
written for the id. -/
theorem claim_C4_error_leaves_cache_unchanged (env : Env) (now : Nat)
    (cache : CMap Nat SvcState) (id : Nat) (status : Status) (e : GoErr)
    (hneq : ∀ current, cacheFind cache id = some current →
      ¬ current.value.status = status)
    (herr : repoGet env id = Except.error e ∨
      ∃ target, repoGet env id = Except.ok target ∧
        env.apiResult target status = some e) :
    (stateManagerSend env now cache id status).1 = Except.error e ∧
    (stateManagerSend env now cache id status).2.1 = cache := by
  rcases herr with h | ⟨target, hok, hapi⟩
  · have hs : stateManagerSend env now cache id status =
        (Except.error e, cache, [Ev.repoGet id]) := by
      unfold stateManagerSend
      cases hc : cacheFind cache id with
      | none => simp [h]
      | some current => simp [hneq current hc, h]
    rw [hs]
    exact ⟨rfl, rfl⟩
  · have hs : stateManagerSend env now cache id status =
        (Except.error e, cache, [Ev.repoGet id, Ev.apiSend target status]) := by
      unfold stateManagerSend
      cases hc : cacheFind cache id with
      | none => simp [hok, hapi]
      | some current => simp [hneq current hc, hok, hapi]
    rw [hs]
    exact ⟨rfl, rfl⟩

theorem claim_C4_witness :
    (stateManagerSend ⟨fun _ => none, fun _ _ => none⟩ 0 [] 1 Status.Up).1 =
      Except.error GoErr.webhookNotFound ∧
    (stateManagerSend ⟨fun _ => none, fun _ _ => none⟩ 0 [] 1 Status.Up).2.1 = [] :=
  claim_C4_error_leaves_cache_unchanged _ 0 [] 1 Status.Up GoErr.webhookNotFound
    (by intro current h; simp [cacheFind] at h) (Or.inl rfl)

/-- Claim C5. An eviction whose entry carries `attempt ≥ 5` makes the
handler give up silently: no repository lookup, no notifier call, no
re-insert — the cache contents and the call trace are both left
empty-handed. -/
theorem claim_C5_retry_ceiling_gives_up (env : Env) (now : Nat)
    (cache : CMap Nat SvcState) (id : Nat) (current : SvcState)
    (h : 5 ≤ current.attempt) :
    garbageCollector env now cache id current = (cache, []) := by
  simp [garbageCollector, h]

theorem claim_C5_witness :
    garbageCollector ⟨fun _ => some ("http://h/1"), fun _ _ => none⟩ 42
        [(4, ⟨⟨Status.Up, 5⟩, 40⟩)] 4 ⟨Status.Up, 5⟩ =
      ([(4, ⟨⟨Status.Up, 5⟩, 40⟩)], []) :=
  claim_C5_retry_ceiling_gives_up _ 42 _ 4 ⟨Status.Up, 5⟩ (by decide)

/-- Claim C6. One sweeper pass turns exactly the entries whose
deadline is strictly before the current instant into eviction-callback
invocations carrying the entry's key and value, and keeps every other
entry with value and deadline unchanged. -/
theorem claim_C6_sweep_exactness {K V : Type} (now : Nat) (items : CMap K V) :
    removeExpiredItems now items =
      (items.filter (fun p => ¬(p.2.ttl < now)),
        (items.filter (fun p => p.2.ttl < now)).map (fun p => (p.1, p.2.value))) :=
  removeExpired_spec now items

/-- Claim C7. Eviction callback registration composes LIFO: with `f1`
registered first and `f2` second on top of the do-nothing default, an
eviction runs `f2` and then `f1`, each on the evicted key and value. -/
theorem claim_C7_onEvict_lifo {K V E : Type} (f1 f2 : K → V → List E)
    (key : K) (value : V) :
    onEvictCompose (onEvictCompose onEvictDefault f1) f2 key value =
      f2 key value ++ f1 key value := by
  simp [onEvictCompose, onEvictDefault]

/-- Claim C8. After `Add(k, v, ttl)` at instant `t0`, a `Get(k)` at
any instant `t` with `t0 ≤ t < t0 + ttl` returns `v` (with present =
true), whatever other operations ran in between — sweeps at instants
up to `t` and `Add`s for other keys — as long as none was an `Add` for
`k`. -/
theorem claim_C8_add_get_within_ttl {K V : Type} [DecidableEq K]
    (items0 : CMap K V) (k : K) (v : V) (ttl t0 t : Nat)
    (ops : List (Nat × CacheOp K V))
    (ht0 : t0 ≤ t) (ht : t < t0 + ttl)
    (hops : ∀ p ∈ ops, p.1 ≤ t ∧ addsKey k p.2 = false) :
    cacheGet (applyCacheOps (cacheAdd items0 t0 k v ttl) ops) k = some v := by
  have hfind := cacheFind_add_self items0 t0 k v ttl
  have hkeep := applyOps_preserve k v (t0 + ttl) t ops
    (cacheAdd items0 t0 k v ttl) hfind hops ht
  rw [cacheGet_eq_find, hkeep]
  rfl

theorem claim_C8_witness :
    cacheGet (applyCacheOps (cacheAdd ([] : CMap Nat String) 0 1 "hello" 5)
      [(2, CacheOp.sweep), (3, CacheOp.add 2 "w" 1)]) 1 = some ("hello") :=
  claim_C8_add_get_within_ttl [] 1 "hello" 5 0 4
    [(2, CacheOp.sweep), (3, CacheOp.add 2 "w" 1)]
    (by decide) (by decide) (by decide)

/-- Claim C9. For every URL and status in Up/Down, the notifier issues
one POST to that URL with content type `application/json` and body
exactly the corresponding trigger document, and returns nil exactly
when the transport produced a response — whatever its HTTP status
code. -/
theorem claim_C9_notifier_contract (transport : HttpRequest → Option HttpResponse)
    (url : String) (status : Status)
    (hs : status = Status.Up ∨ status = Status.Down) :
    (instatusSend transport url status).1 =
      ⟨"POST", url, "application/json",
        if status = Status.Up then ("\x7b\"trigger\": \"up\"\x7d")
        else ("\x7b\"trigger\": \"down\"\x7d")⟩ ∧
    ((instatusSend transport url status).2 = none ↔
      ∃ resp, transport (instatusSend transport url status).1 = some resp) := by
  constructor
  · rcases hs with h | h <;> subst h
    · show (⟨"POST", url, "application/json", triggerPayload Status.Up⟩ : HttpRequest) = _
      rw [if_pos rfl]
      rfl
    · show (⟨"POST", url, "application/json", triggerPayload Status.Down⟩ : HttpRequest) = _
      rw [if_neg (by decide)]
      rfl
  · cases h : transport ⟨"POST", url, "application/json", triggerPayload status⟩ with
    | some r => simp [instatusSend, h]
    | none => simp [instatusSend, h]

theorem claim_C9_witness :
    (instatusSend (fun _ => some (HttpResponse.mk 500)) "http://h/1" Status.Up).1 =
      HttpRequest.mk ("POST") ("http://h/1") ("application/json")
        (if Status.Up = Status.Up then ("\x7b\"trigger\": \"up\"\x7d")
         else ("\x7b\"trigger\": \"down\"\x7d")) ∧
    ((instatusSend (fun _ => some (HttpResponse.mk 500)) "http://h/1" Status.Up).2 =
        none ↔
      ∃ resp, (fun (_ : HttpRequest) => some (HttpResponse.mk 500))
        (instatusSend (fun _ => some (HttpResponse.mk 500)) "http://h/1" Status.Up).1 =
          some resp) :=
  claim_C9_notifier_contract (fun _ => some (HttpResponse.mk 500)) "http://h/1"
    Status.Up (Or.inl rfl)

/-- Claim C10. `Cache.Get` never consults the deadline: an entry still
in the map is returned with present = true even after its deadline has
passed, and a heartbeat with the same status arriving then takes the
equal-status refresh path of `StateManager.Send` — nil result, no
repository or notifier call, entry refreshed. -/
theorem claim_C10_get_ignores_deadline (env : Env) (now : Nat)
    (cache : CMap Nat SvcState) (id : Nat) (st : SvcState) (deadline : Nat)
    (hfind : cacheFind cache id = some ⟨st, deadline⟩)
    (hexpired : deadline < now) :
    cacheGet cache id = some st ∧
    stateManagerSend env now cache id st.status =
      (Except.ok (), cacheAdd cache now id ⟨st.status, 0⟩ 60, []) := by
  constructor
  · rw [cacheGet_eq_find, hfind]
    rfl
  · simp [stateManagerSend, hfind]

theorem claim_C10_witness :
    cacheGet ([(2, ⟨⟨Status.Up, 0⟩, 3⟩)] : CMap Nat SvcState) 2 =
      some ⟨Status.Up, 0⟩ ∧
    stateManagerSend ⟨fun _ => none, fun _ _ => none⟩ 10
        ([(2, ⟨⟨Status.Up, 0⟩, 3⟩)] : CMap Nat SvcState) 2 Status.Up =
      (Except.ok (),
        cacheAdd ([(2, ⟨⟨Status.Up, 0⟩, 3⟩)] : CMap Nat SvcState) 10 2
          ⟨Status.Up, 0⟩ 60,
        []) :=
  claim_C10_get_ignores_deadline _ 10 _ 2 ⟨Status.Up, 0⟩ 3 (by decide) (by decide)
